import Mathlib

/-
Shallow embedding of the asynchronous I/O engine of StratoVirt
(util/src/aio/mod.rs) and proofs about its submission, queueing,
completion and alignment logic.

Conventions of the embedding:
  - Machine integers (u32, u64, usize, i64) are modelled as `Nat` or `Int`;
    wrap-around is written explicitly as `% U64LIMIT` at the few places the
    source can overflow (the `incomplete_cnt` atomic counter and the
    `iov_base + size` address computation in `iovecs_split`).
  - Guest memory is a byte function `mem : Nat → Nat`; the source reads it
    through raw pointers.  `readU64` is the little-endian 8-byte load the
    zero-scan performs via `slice::from_raw_parts(.. as *const u64, ..)`.
  - The intrusive doubly-linked lists (`aio_in_queue`, `aio_in_flight`) are
    Lean lists whose first element is the list head: `add_head` is `cons`,
    `add_tail` appends, `pop_tail` takes the last element, `pop_head` the
    first, `unlink` erases the node.
  - Effects of the backend (`AioContext::submit`) and of the completion
    eventfd are supplied as oracles: a stream of submit replies and a list
    of reaped events.  Completion callbacks are modelled as an explicit log
    of `(control block, result)` pairs, in invocation order.
-/

/-- 2^64, the modulus of u64 arithmetic. -/
def U64LIMIT : Nat := 2 ^ 64

/-- Max bytes of bounce buffer for misaligned IO (source: `1 << 20`). -/
def MAX_LEN_BOUNCE_BUFF : Nat := 1 <<< 20

/-- `enum AioEngine { Off, Native, IoUring }`. -/
inductive AioEngine
  | Off
  | Native
  | IoUring
deriving DecidableEq, Repr

/-- `enum WriteZeroesState { Off, On, Unmap }`. -/
inductive WriteZeroesState
  | Off
  | On
  | Unmap
deriving DecidableEq, Repr

/-- `struct Iovec { iov_base: u64, iov_len: u64 }`. -/
structure Iovec where
  iov_base : Nat
  iov_len : Nat
deriving DecidableEq, Repr

/-- `Iovec::new`. -/
def Iovec.new (base len : Nat) : Iovec :=
  { iov_base := base, iov_len := len }

/-- `enum OpCode`. -/
inductive OpCode
  | Noop
  | Preadv
  | Pwritev
  | Fdsync
  | Discard
  | WriteZeroes
  | WriteZeroesUnmap
deriving DecidableEq, Repr

/-- `struct AioCb<T>`.  The completion closure `iocompletecb : T` and the
`combine_req` atomics are engine-opaque caller state and carry no data the
engine reads; completions are modelled as an explicit log instead. -/
structure AioCb where
  direct : Bool
  req_align : Nat
  buf_align : Nat
  discard : Bool
  write_zeroes : WriteZeroesState
  file_fd : Int
  opcode : OpCode
  iovec : List Iovec
  offset : Nat
  nbytes : Nat
  user_data : Nat
deriving DecidableEq, Repr

/-- The u64 → i64 cast performed by `cb.nbytes as i64`. -/
def i64_of_u64 (n : Nat) : Int :=
  if n < 2 ^ 63 then (n : Int) else (n : Int) - (U64LIMIT : Int)

/-- `Aio::request_misaligned`: a direct read/write whose offset, buffer base
or buffer length violates the alignment masks. -/
def request_misaligned (cb : AioCb) : Bool :=
  if cb.direct && (cb.opcode == OpCode.Preadv || cb.opcode == OpCode.Pwritev) then
    if cb.offset &&& (cb.req_align - 1) != 0 then
      true
    else
      cb.iovec.any fun iov =>
        iov.iov_base &&& (cb.buf_align - 1) != 0 ||
        iov.iov_len &&& (cb.req_align - 1) != 0
  else
    false

/-- Little-endian u64 load of 8 guest bytes, as performed by the zero-scan
viewing memory through `*const u64`. -/
def readU64 (mem : Nat → Nat) (addr : Nat) : Nat :=
  ∑ j ∈ Finset.range 8, mem (addr + j) * 256 ^ j

/-- `iovec_is_zero`: scan every iovec as u64 words; an iovec whose length is
not a multiple of 8 makes the whole scan report non-zero. -/
def iovec_is_zero (mem : Nat → Nat) (iovecs : List Iovec) : Bool :=
  iovecs.all fun iov =>
    iov.iov_len % 8 == 0 &&
    (List.range (iov.iov_len / 8)).all fun k =>
      readU64 mem (iov.iov_base + 8 * k) == 0

/-- The write-zeroes promotion performed by `Aio::submit_request` after the
misalignment check: `Pwritev` over all-zero data becomes `WriteZeroes`, and
further `WriteZeroesUnmap` when the policy is `Unmap` and discard is on. -/
def promoted_opcode (mem : Nat → Nat) (cb : AioCb) : OpCode :=
  if cb.opcode == OpCode.Pwritev
      && cb.write_zeroes != WriteZeroesState.Off
      && iovec_is_zero mem cb.iovec then
    if cb.write_zeroes == WriteZeroesState.Unmap && cb.discard then
      OpCode.WriteZeroesUnmap
    else
      OpCode.WriteZeroes
  else
    cb.opcode

/-- The two control-flow classes of `Aio::submit_request`: the synchronous
bounce-buffer path, or promotion followed by dispatch on the (possibly
promoted) opcode. -/
inductive SubmitPath
  | bounce
  | dispatch (op : OpCode)
deriving DecidableEq, Repr

/-- The path decision of `Aio::submit_request`: misaligned direct requests
take the bounce path before any promotion or dispatch happens. -/
def submit_path (mem : Nat → Nat) (cb : AioCb) : SubmitPath :=
  if request_misaligned cb then
    SubmitPath.bounce
  else
    SubmitPath.dispatch (promoted_opcode mem cb)

/-- `iovecs_split`: cut a scatter list after `size` bytes.  The element on
the boundary is split in two; `iov_base + size` is a u64 addition. -/
def iovecs_split : List Iovec → Nat → List Iovec × List Iovec
  | [], _ => ([], [])
  | iov :: rest, size =>
    if size = 0 then
      let p := iovecs_split rest 0
      (p.1, iov :: p.2)
    else if size < iov.iov_len then
      let p := iovecs_split rest 0
      (Iovec.new iov.iov_base size :: p.1,
        Iovec.new ((iov.iov_base + size) % U64LIMIT) (iov.iov_len - size) :: p.2)
    else
      let p := iovecs_split rest (size - iov.iov_len)
      (iov :: p.1, p.2)

/-- Total byte length described by a scatter list (`get_iov_size`). -/
def iovLenSum (l : List Iovec) : Nat :=
  (l.map Iovec.iov_len).sum

/-- The byte addresses covered by one iovec, in order. -/
def iovAddrs (iov : Iovec) : List Nat :=
  (List.range iov.iov_len).map fun i => iov.iov_base + i

/-- The byte addresses covered by a scatter list, in order. -/
def iovecsAddrs (l : List Iovec) : List Nat :=
  (l.map iovAddrs).flatten

/-! ## Engine state

`struct Aio<T>`: the two intrusive queues, the atomic incomplete counter and
the fixed `max_events`.  The backend context and eventfd are replaced by
oracles at the call sites that use them. -/

/-- The queue-and-counter state of `Aio<T>`. -/
structure AioState where
  aio_in_queue : List AioCb
  aio_in_flight : List AioCb
  incomplete_cnt : Nat
  max_events : Nat
deriving DecidableEq, Repr

/-- u64 `fetch_add(1)` on the incomplete counter. -/
def u64_add_one (n : Nat) : Nat :=
  (n + 1) % U64LIMIT

/-- u64 `fetch_sub(1)` on the incomplete counter. -/
def u64_sub_one (n : Nat) : Nat :=
  (n + (U64LIMIT - 1)) % U64LIMIT

/-- `Aio::new`: empty queues, zero incomplete counter, `max_events = 128`. -/
def Aio.new : AioState :=
  { aio_in_queue := [], aio_in_flight := [], incomplete_cnt := 0, max_events := 128 }

/-- One reply of `AioContext::submit`: `Ok(nr)` with the number of accepted
control blocks, or `Err`, which the source turns into `(0, is_err = true)`. -/
inductive SubmitReply
  | ok (nr : Nat)
  | err
deriving DecidableEq, Repr

/-- The batch-building loop of `Aio::process_list`: up to `n` times, pop the
tail of `aio_in_queue`, push it onto the head of `aio_in_flight` and append
it to the batch.  Returns (queue, flight, batch). -/
def process_list_fill : Nat → List AioCb → List AioCb → List AioCb × List AioCb × List AioCb
  | 0, q, fl => (q, fl, [])
  | n + 1, q, fl =>
    match q.getLast? with
    | none => (q, fl, [])
    | some x =>
      let rest := process_list_fill n q.dropLast (x :: fl)
      (rest.1, rest.2.1, x :: rest.2.2)

/-- The push-back loop of `Aio::process_list`: `n` times, pop the head of
`aio_in_flight` (if any) and append it to the tail of `aio_in_queue`.
Returns (flight, queue). -/
def process_list_pushback : Nat → List AioCb → List AioCb → List AioCb × List AioCb
  | 0, fl, q => (fl, q)
  | n + 1, fl, q =>
    match fl with
    | [] => process_list_pushback n [] q
    | x :: rest => process_list_pushback n rest (q ++ [x])

/-- Result of one iteration of the `while` loop in `Aio::process_list`:
the new state, the completion callbacks fired (with their results), and
whether the loop continues. -/
structure StepResult where
  st : AioState
  completions : List (AioCb × Int)
  looping : Bool
deriving DecidableEq, Repr

/-- One iteration of the `while` loop of `Aio::process_list`: build a batch
until `aio_in_flight` holds `max_events` entries, submit it (the backend
reply is the oracle argument), move the unaccepted suffix back to the tail
of `aio_in_queue`, and on an error reply fail exactly one control block
popped from the tail of `aio_in_queue` with result `-1`. -/
def process_list_step (reply : SubmitReply) (s : AioState) : StepResult :=
  let fill := process_list_fill (s.max_events - s.aio_in_flight.length)
    s.aio_in_queue s.aio_in_flight
  let nr := match reply with
    | SubmitReply.ok n => n
    | SubmitReply.err => 0
  let is_err := match reply with
    | SubmitReply.ok _ => false
    | SubmitReply.err => true
  let pb := process_list_pushback (fill.2.2.length - nr) fill.2.1 fill.1
  if is_err then
    match pb.2.getLast? with
    | some node =>
      { st := { s with
                aio_in_queue := pb.2.dropLast
                aio_in_flight := pb.1
                incomplete_cnt := u64_sub_one s.incomplete_cnt }
        completions := [(node, -1)]
        looping := true }
    | none =>
      { st := { s with aio_in_queue := pb.2, aio_in_flight := pb.1 }
        completions := []
        looping := true }
  else if nr = 0 then
    { st := { s with aio_in_queue := pb.2, aio_in_flight := pb.1 }
      completions := []
      looping := false }
  else
    { st := { s with aio_in_queue := pb.2, aio_in_flight := pb.1 }
      completions := []
      looping := true }

/-- Closed form of the batch-building loop: with `k = min n |q|` entries
moved, the last `k` elements of the queue go to the flight head (so the
flight starts with that suffix of the queue in order) and the batch lists
them oldest-first. -/
theorem process_list_fill_eq (n : Nat) (q fl : List AioCb) :
    process_list_fill n q fl =
      (q.take (q.length - min n q.length),
        q.drop (q.length - min n q.length) ++ fl,
        (q.drop (q.length - min n q.length)).reverse) := by
  induction n generalizing q fl with
  | zero => simp [process_list_fill]
  | succ n ih =>
    induction q using List.reverseRecOn with
    | nil => simp [process_list_fill]
    | append_singleton as a _ =>
      have hd : as.length - min n as.length ≤ as.length := Nat.sub_le _ _
      simp only [process_list_fill, List.getLast?_concat, List.dropLast_concat, ih]
      simp [List.take_append_of_le_length hd, List.drop_append_of_le_length hd,
        Nat.succ_min_succ, Nat.succ_sub_succ, List.reverse_append]

/-- Closed form of the push-back loop: the first `n` flight entries are
appended, in order, to the queue tail. -/
theorem process_list_pushback_eq (n : Nat) (fl q : List AioCb) :
    process_list_pushback n fl q = (fl.drop n, q ++ fl.take n) := by
  induction n generalizing fl q with
  | zero => simp [process_list_pushback]
  | succ n ih =>
    cases fl with
    | nil => simp [process_list_pushback, ih]
    | cons x rest => simp [process_list_pushback, ih]

/-- Number of control blocks one iteration moves into the batch. -/
def batch_count (s : AioState) : Nat :=
  min (s.max_events - s.aio_in_flight.length) s.aio_in_queue.length

/-- Characterization of one iteration on reply `Ok(nr)`: `nr` submitted
control blocks stay in `aio_in_flight`, the unaccepted suffix of the batch
returns to the queue, no completion fires, and the loop goes on iff
`nr ≠ 0`. -/
theorem process_list_step_ok (s : AioState) (nr : Nat) :
    process_list_step (SubmitReply.ok nr) s =
      { st := { s with
                aio_in_queue :=
                  s.aio_in_queue.take (s.aio_in_queue.length - batch_count s) ++
                    (s.aio_in_queue.drop (s.aio_in_queue.length - batch_count s)).take
                      (batch_count s - nr)
                aio_in_flight :=
                  (s.aio_in_queue.drop (s.aio_in_queue.length - batch_count s)).drop
                    (batch_count s - nr) ++ s.aio_in_flight }
        completions := []
        looping := !(nr == 0) } := by
  simp only [batch_count, process_list_step, process_list_fill_eq,
    process_list_pushback_eq, List.length_reverse]
  set k := min (s.max_events - s.aio_in_flight.length) s.aio_in_queue.length with hk
  have hk_le : k ≤ s.aio_in_queue.length := by
    rw [hk]; exact Nat.min_le_right _ _
  set d := s.aio_in_queue.length - k with hd
  have hlen : (s.aio_in_queue.drop d).length = k := by
    simp [hd, Nat.sub_sub_self hk_le]
  rw [hlen]
  rw [List.take_append_of_le_length (hlen.symm ▸ Nat.sub_le k nr),
    List.drop_append_of_le_length (hlen.symm ▸ Nat.sub_le k nr)]
  by_cases h0 : nr = 0 <;> simp [h0]

/-- Characterization of one iteration on an error reply: the whole batch
returns to the queue (restoring it exactly), the flight list is unchanged,
the tail of the restored queue is popped and failed with `-1`, the
incomplete counter is decremented once, and the loop continues. -/
theorem process_list_step_err (s : AioState) (hq : s.aio_in_queue ≠ []) :
    process_list_step SubmitReply.err s =
      { st := { s with
                aio_in_queue := s.aio_in_queue.dropLast
                incomplete_cnt := u64_sub_one s.incomplete_cnt }
        completions := [(s.aio_in_queue.getLast hq, -1)]
        looping := true } := by
  simp only [process_list_step, process_list_fill_eq, process_list_pushback_eq,
    List.length_reverse]
  set k := min (s.max_events - s.aio_in_flight.length) s.aio_in_queue.length with hk
  have hk_le : k ≤ s.aio_in_queue.length := by
    rw [hk]; exact Nat.min_le_right _ _
  set d := s.aio_in_queue.length - k with hd
  have hlen : (s.aio_in_queue.drop d).length = k := by
    simp [hd, Nat.sub_sub_self hk_le]
  rw [Nat.sub_zero, hlen]
  rw [List.take_append_of_le_length (le_of_eq hlen.symm),
    List.drop_append_of_le_length (le_of_eq hlen.symm)]
  rw [show (s.aio_in_queue.drop d).take k = s.aio_in_queue.drop d by
    rw [← hlen]; exact List.take_length _]
  rw [show (s.aio_in_queue.drop d).drop k = [] by
    rw [← hlen]; exact List.drop_length _]
  rw [List.take_append_drop]
  rw [List.getLast?_eq_getLast _ hq]
  simp

/-- When one iteration continues the loop (under the loop guard), the queue
strictly shrinks; this is the termination measure of `process_list`. -/
theorem process_list_step_queue_lt (reply : SubmitReply) (s : AioState)
    (hq : 0 < s.aio_in_queue.length) (hf : s.aio_in_flight.length < s.max_events)
    (hl : (process_list_step reply s).looping = true) :
    (process_list_step reply s).st.aio_in_queue.length < s.aio_in_queue.length := by
  have hkpos : 0 < batch_count s := lt_min (Nat.sub_pos_of_lt hf) hq
  have hk_le : batch_count s ≤ s.aio_in_queue.length := Nat.min_le_right _ _
  cases reply with
  | err =>
    have hne : s.aio_in_queue ≠ [] := by
      intro h
      rw [h] at hq
      simp at hq
    rw [process_list_step_err s hne]
    simp only [List.length_dropLast]
    omega
  | ok nr =>
    rw [process_list_step_ok] at hl ⊢
    have hnr : nr ≠ 0 := by simpa using hl
    simp only [List.length_append, List.length_take, List.length_drop]
    omega

/-- `Aio::process_list`: the `while` loop.  `replies` is the backend oracle,
one reply per submitted batch, starting at index `idx`.  Returns the final
state and the completions fired (each failed control block with `-1`). -/
def process_list (replies : Nat → SubmitReply) (idx : Nat) (s : AioState) :
    AioState × List (AioCb × Int) :=
  if h : 0 < s.aio_in_queue.length ∧ s.aio_in_flight.length < s.max_events then
    let r := process_list_step (replies idx) s
    if hl : r.looping then
      let rest := process_list replies (idx + 1) r.st
      (rest.1, r.completions ++ rest.2)
    else
      (r.st, r.completions)
  else
    (s, [])
termination_by s.aio_in_queue.length
decreasing_by
  exact process_list_step_queue_lt (replies idx) s h.1 h.2 hl

/-- `Aio::rw_async`: box the control block at the head of `aio_in_queue`,
bump the incomplete counter, and drain eagerly once the two queues together
reach `max_events`. -/
def rw_async (replies : Nat → SubmitReply) (s : AioState) (cb : AioCb) :
    AioState × List (AioCb × Int) :=
  let s1 := { s with
              aio_in_queue := cb :: s.aio_in_queue
              incomplete_cnt := u64_add_one s.incomplete_cnt }
  if s1.aio_in_queue.length + s1.aio_in_flight.length ≥ s1.max_events then
    process_list replies 0 s1
  else
    (s1, [])

/-- One completion event of `AioContext::get_events`.  The source stores the
boxed node address in `user_data`; the model carries the referenced control
block directly. -/
structure AioEventM where
  cb : AioCb
  status : Int
  res : Int
deriving DecidableEq, Repr

/-- The body of the reap loop in `Aio::handle_complete`, folded over the
accumulated (state, completion log, done flag): compute the delivered
result, fire the callback, unlink the node from `aio_in_flight` and
decrement the incomplete counter.  `done` is set only on a successful
event (`status == 0` and `res == nbytes`). -/
def reap_step (acc : AioState × List (AioCb × Int) × Bool) (evt : AioEventM) :
    AioState × List (AioCb × Int) × Bool :=
  let evt_ok := evt.status == 0 && evt.res == i64_of_u64 evt.cb.nbytes
  let r : Int := if evt_ok then evt.res else -1
  ({ acc.1 with
      aio_in_flight := acc.1.aio_in_flight.erase evt.cb
      incomplete_cnt := u64_sub_one acc.1.incomplete_cnt },
    acc.2.1 ++ [(evt.cb, r)],
    acc.2.2 || evt_ok)

/-- The event-draining phase of `Aio::handle_complete`. -/
def reap_events (events : List AioEventM) (s : AioState) :
    AioState × List (AioCb × Int) × Bool :=
  events.foldl reap_step (s, [], false)

/-- `Aio::handle_complete`: with no backend context it only warns and
reports `false`; otherwise it reaps the events supplied by the backend,
then refills the backend via `process_list`, and reports the done flag.
(A failing completion callback aborts the remaining events early in the
source; the per-event bookkeeping it has already done is identical.) -/
def handle_complete (has_ctx : Bool) (events : List AioEventM)
    (replies : Nat → SubmitReply) (s : AioState) :
    AioState × List (AioCb × Int) × Bool :=
  if has_ctx then
    let reaped := reap_events events s
    let pl := process_list replies 0 reaped.1
    (pl.1, reaped.2.1 ++ pl.2, reaped.2.2)
  else
    (s, [], false)

/-- Modelled from the spec: `round_down(value, align)` of `util::num_ops`
(the num_ops module is not part of the provided sources); §4.3.3 uses it as
rounding down to a multiple of the alignment, and `submit_request` treats a
`None` reply as an error. -/
def round_down (value align : Nat) : Option Nat :=
  if align = 0 then none else some (value - value % align)

/-- Observable actions of the bounce-buffer path of `Aio::submit_request`:
allocation of the bounce buffer, its release, and the completion callback
with its result. -/
inductive MisEvent
  | alloc
  | free
  | callback (r : Int)
deriving DecidableEq, Repr

/-- The misaligned branch of `Aio::submit_request`, as the ordered trace of
its observable actions.  `alloc_ok` tells whether `memalign` succeeded and
`rw_ok` whether `handle_misaligned_rw` (raw bounce I/O, abstracted as an
environment outcome) returned `Ok`.  `none` models the error return taken
when `round_down` fails, which fires no callback. -/
def submit_request_misaligned (cb : AioCb) (alloc_ok rw_ok : Bool) :
    Option (List MisEvent) :=
  match round_down (cb.nbytes + cb.req_align * 2) cb.req_align with
  | none => none
  | some max_len =>
    let _buff_len := min max_len MAX_LEN_BOUNCE_BUFF
    if alloc_ok then
      let res : Int := if rw_ok then 0 else -1
      some [MisEvent.alloc, MisEvent.free, MisEvent.callback res]
    else
      some [MisEvent.callback (-1)]

/-- Observable actions of `Aio::write_zeroes_sync`: the raw discard call,
the raw write-zeroes call (each with its return value) and the completion
callback. -/
inductive WzEvent
  | discard_call (r : Int)
  | write_zeroes_call (r : Int)
  | callback (r : Int)
deriving DecidableEq, Repr

/-- `Aio::write_zeroes_sync`, as the ordered trace of its raw calls and the
completion callback.  `discard_res` and `wz_res` are the environment
results of `raw_discard` and `raw_write_zeroes`. -/
def write_zeroes_sync (cb : AioCb) (discard_res wz_res : Int) : List WzEvent :=
  if cb.opcode == OpCode.WriteZeroesUnmap then
    if discard_res = 0 then
      [WzEvent.discard_call discard_res, WzEvent.callback discard_res]
    else
      [WzEvent.discard_call discard_res, WzEvent.write_zeroes_call wz_res,
        WzEvent.callback wz_res]
  else
    [WzEvent.write_zeroes_call wz_res, WzEvent.callback wz_res]

/-- The published counter equals the number of queued plus in-flight
control blocks (as a u64, i.e. modulo 2^64). -/
def cnt_invariant (s : AioState) : Prop :=
  s.incomplete_cnt = (s.aio_in_queue.length + s.aio_in_flight.length) % U64LIMIT

/-- Validity of a reaped event list: each event refers to a node currently
linked into `aio_in_flight` (distinct events to distinct nodes), which is
what the source guarantees by storing box addresses in `user_data`. -/
def events_valid : List AioEventM → List AioCb → Prop
  | [], _ => True
  | e :: es, fl => e.cb ∈ fl ∧ events_valid es (fl.erase e.cb)

/-! ## Properties of `iovecs_split` -/

/-- Splitting at size 0 sends the whole list to the second component. -/
theorem iovecs_split_zero (l : List Iovec) : iovecs_split l 0 = ([], l) := by
  induction l with
  | nil => rfl
  | cons iov rest ih => simp [iovecs_split, ih]

/-- C9: `iovecs_split` cuts a scatter list after `size` bytes: the first
part describes `min size (total length)` bytes, the second part the
remainder, and the two parts cover, in order, exactly the byte addresses of
the input (the boundary element is split once, keeping its base address).
The overflow-freedom hypothesis discharges the u64 addition
`iov_base + size`. -/
theorem iovecs_split_spec (l : List Iovec) (size : Nat)
    (h : ∀ iov ∈ l, iov.iov_base + iov.iov_len ≤ U64LIMIT) :
    iovLenSum (iovecs_split l size).1 = min size (iovLenSum l) ∧
    iovLenSum (iovecs_split l size).2 = iovLenSum l - min size (iovLenSum l) ∧
    iovecsAddrs (iovecs_split l size).1 ++ iovecsAddrs (iovecs_split l size).2 =
      iovecsAddrs l := by
  revert h
  induction l generalizing size with
  | nil =>
    intro h
    simp [iovecs_split, iovLenSum, iovecsAddrs]
  | cons iov rest ih =>
    intro h
    by_cases h0 : size = 0
    · subst h0
      simp [iovecs_split, iovecs_split_zero, iovLenSum, iovecsAddrs]
    · by_cases h1 : size < iov.iov_len
      · have hiov := h iov (List.mem_cons_self _ _)
        have hb : iov.iov_base + size < U64LIMIT := by omega
        have hmod : (iov.iov_base + size) % U64LIMIT = iov.iov_base + size :=
          Nat.mod_eq_of_lt hb
        simp only [iovecs_split, if_neg h0, if_pos h1, iovecs_split_zero]
        refine ⟨?_, ?_, ?_⟩
        · simp [iovLenSum, Iovec.new]
          omega
        · simp [iovLenSum, Iovec.new]
          omega
        · simp only [iovecsAddrs, iovAddrs, Iovec.new, List.map_cons, List.map_nil,
            List.flatten_cons, List.flatten_nil, List.append_nil, hmod]
          rw [show iov.iov_len = size + (iov.iov_len - size) from
            (Nat.add_sub_cancel' (le_of_lt h1)).symm]
          rw [List.range_add, List.map_append, List.map_map]
          simp [Function.comp_def, List.append_assoc, Nat.add_assoc]
      · push_neg at h1
        simp only [iovecs_split, if_neg h0, if_neg (not_lt.mpr h1)]
        obtain ⟨ha, hb2, hc⟩ :=
          ih (size - iov.iov_len) (fun i hi => h i (List.mem_cons_of_mem _ hi))
        refine ⟨?_, ?_, ?_⟩
        · simp only [iovLenSum, List.map_cons, List.sum_cons] at ha ⊢
          omega
        · simp only [iovLenSum, List.map_cons, List.sum_cons] at hb2 ⊢
          omega
        · simp only [iovecsAddrs, List.map_cons, List.flatten_cons] at hc ⊢
          rw [List.append_assoc, hc]

/-- Witness: `iovecs_split_spec` evaluated at the boundary-splitting example
from the source tests. -/
theorem iovecs_split_spec_witness :
    iovLenSum (iovecs_split [Iovec.new 0 100, Iovec.new 200 100] 150).1 =
      min 150 (iovLenSum [Iovec.new 0 100, Iovec.new 200 100]) ∧
    iovLenSum (iovecs_split [Iovec.new 0 100, Iovec.new 200 100] 150).2 =
      iovLenSum [Iovec.new 0 100, Iovec.new 200 100] -
        min 150 (iovLenSum [Iovec.new 0 100, Iovec.new 200 100]) ∧
    iovecsAddrs (iovecs_split [Iovec.new 0 100, Iovec.new 200 100] 150).1 ++
        iovecsAddrs (iovecs_split [Iovec.new 0 100, Iovec.new 200 100] 150).2 =
      iovecsAddrs [Iovec.new 0 100, Iovec.new 200 100] :=
  iovecs_split_spec [Iovec.new 0 100, Iovec.new 200 100] 150 (by decide)

/-! ## Misalignment check and write-zeroes promotion -/

/-- The bitmask test of `request_misaligned` equals the modulus test once
the alignment is a power of two. -/
theorem request_misaligned_iff (cb : AioCb) (i j : Nat)
    (hr : cb.req_align = 2 ^ i) (hb : cb.buf_align = 2 ^ j) :
    request_misaligned cb = true ↔
      cb.direct = true ∧ (cb.opcode = OpCode.Preadv ∨ cb.opcode = OpCode.Pwritev) ∧
        (cb.offset % cb.req_align ≠ 0 ∨
          ∃ iov ∈ cb.iovec, iov.iov_base % cb.buf_align ≠ 0 ∨
            iov.iov_len % cb.req_align ≠ 0) := by
  simp only [request_misaligned, hr, hb, Nat.and_pow_two_sub_one_eq_mod]
  by_cases hdir : cb.direct = true <;>
    by_cases hop : cb.opcode = OpCode.Preadv ∨ cb.opcode = OpCode.Pwritev <;>
      by_cases hoff : cb.offset % 2 ^ i = 0 <;>
        simp [hdir, hoff, List.any_eq_true] <;>
          first
            | (simp [show (cb.opcode == OpCode.Preadv || cb.opcode == OpCode.Pwritev) = true
                by rcases hop with h | h <;> simp [h]]
               constructor
               · rintro ⟨iov, hiov, hcase⟩
                 refine ⟨hop, Or.inr ⟨iov, hiov, ?_⟩⟩
                 rcases hcase with hcase | hcase <;> simp_all
               · rintro ⟨-, h | ⟨iov, hiov, hcase⟩⟩
                 · exact absurd h hoff
                 · exact ⟨iov, hiov, by rcases hcase with hcase | hcase <;> simp_all⟩)
            | (simp [show ¬(cb.opcode == OpCode.Preadv || cb.opcode == OpCode.Pwritev) = true
                by simpa using hop]
               tauto)
            | tauto

/-- A u64 word read is zero iff its eight bytes are zero. -/
theorem readU64_eq_zero_iff (mem : Nat → Nat) (addr : Nat) :
    readU64 mem addr = 0 ↔ ∀ t < 8, mem (addr + t) = 0 := by
  unfold readU64
  rw [Finset.sum_eq_zero_iff]
  constructor
  · intro h t ht
    have hz := h t (Finset.mem_range.mpr ht)
    rcases Nat.mul_eq_zero.mp hz with h0 | h0
    · exact h0
    · exact absurd h0 (pow_pos (by norm_num : (0 : Nat) < 256) t).ne'
  · intro h j hj
    rw [h j (Finset.mem_range.mp hj)]
    simp

/-- For a length that is a multiple of 8, the word scan covers exactly the
bytes of the buffer. -/
theorem words_zero_iff_bytes_zero (mem : Nat → Nat) (b len : Nat) (hdvd : len % 8 = 0) :
    (∀ k < len / 8, readU64 mem (b + 8 * k) = 0) ↔
      ∀ t < len, mem (b + t) = 0 := by
  have h8 : 8 ∣ len := Nat.dvd_of_mod_eq_zero hdvd
  constructor
  · intro h t ht
    have hk : t / 8 < len / 8 := Nat.div_lt_div_of_lt_of_dvd h8 ht
    have hw := (readU64_eq_zero_iff mem (b + 8 * (t / 8))).mp (h _ hk)
    have hbyte := hw (t % 8) (Nat.mod_lt _ (by norm_num))
    rwa [Nat.add_assoc, Nat.div_add_mod] at hbyte
  · intro h k hk
    rw [readU64_eq_zero_iff]
    intro t ht
    have hlt : 8 * k + t < len := by
      have hmul : 8 * (k + 1) ≤ 8 * (len / 8) := Nat.mul_le_mul_left 8 hk
      rw [Nat.mul_div_cancel' h8] at hmul
      omega
    have := h (8 * k + t) hlt
    rwa [← Nat.add_assoc] at this

/-- Byte-level characterization of `iovec_is_zero`: the scan reports zero
iff every iovec has a length divisible by 8 and all its bytes are zero. -/
theorem iovec_is_zero_iff (mem : Nat → Nat) (l : List Iovec) :
    iovec_is_zero mem l = true ↔
      ∀ iov ∈ l, iov.iov_len % 8 = 0 ∧
        ∀ t < iov.iov_len, mem (iov.iov_base + t) = 0 := by
  unfold iovec_is_zero
  rw [List.all_eq_true]
  constructor
  · intro h iov hiov
    have := h iov hiov
    simp only [Bool.and_eq_true, beq_iff_eq, List.all_eq_true, List.mem_range] at this
    exact ⟨this.1, (words_zero_iff_bytes_zero mem _ _ this.1).mp
      (fun k hk => this.2 k hk)⟩
  · intro h iov hiov
    obtain ⟨h1, h2⟩ := h iov hiov
    simp only [Bool.and_eq_true, beq_iff_eq, List.all_eq_true, List.mem_range]
    exact ⟨h1, fun k hk => (words_zero_iff_bytes_zero mem _ _ h1).mpr h2 k hk⟩

/-- C1: `submit_request` takes the bounce-buffer path (synchronous
completion, bypassing promotion and dispatch) iff the control block is a
direct read or write and its offset, some buffer base, or some buffer
length violates the respective alignment, with the bitmask test equal to
the modulus test because the alignments are powers of two. -/
theorem bounce_path_iff_misaligned (mem : Nat → Nat) (cb : AioCb) (i j : Nat)
    (hr : cb.req_align = 2 ^ i) (hb : cb.buf_align = 2 ^ j) :
    submit_path mem cb = SubmitPath.bounce ↔
      cb.direct = true ∧ (cb.opcode = OpCode.Preadv ∨ cb.opcode = OpCode.Pwritev) ∧
        (cb.offset % cb.req_align ≠ 0 ∨
          ∃ iov ∈ cb.iovec, iov.iov_base % cb.buf_align ≠ 0 ∨
            iov.iov_len % cb.req_align ≠ 0) := by
  rw [← request_misaligned_iff cb i j hr hb]
  unfold submit_path
  by_cases hm : request_misaligned cb <;> simp [hm]

/-- Witness for C1: a direct read at odd offset with 512-byte alignment is
routed to the bounce path. -/
theorem bounce_path_iff_misaligned_witness :
    submit_path (fun _ => 0)
        { direct := true, req_align := 512, buf_align := 512, discard := false,
          write_zeroes := WriteZeroesState.Off, file_fd := 3,
          opcode := OpCode.Preadv, iovec := [Iovec.new 4096 512], offset := 50,
          nbytes := 512, user_data := 0 } = SubmitPath.bounce :=
  (bounce_path_iff_misaligned (fun _ => 0) _ 9 9 rfl rfl).mpr
    (by refine ⟨rfl, Or.inl rfl, Or.inl ?_⟩; decide)

/-- C2: a non-misaligned `Pwritev` is promoted to `WriteZeroes` or
`WriteZeroesUnmap` exactly when the policy is not `Off` and every iovec has
a length divisible by 8 and refers only to zero bytes (a length not
divisible by 8 defeats the promotion even over zero bytes); the promotion
reaches `WriteZeroesUnmap` exactly when additionally the policy is `Unmap`
and the control block allows discard. -/
theorem pwritev_promotion_iff (mem : Nat → Nat) (cb : AioCb)
    (hop : cb.opcode = OpCode.Pwritev) (hmis : request_misaligned cb = false) :
    ((submit_path mem cb = SubmitPath.dispatch OpCode.WriteZeroes ∨
        submit_path mem cb = SubmitPath.dispatch OpCode.WriteZeroesUnmap) ↔
      (cb.write_zeroes ≠ WriteZeroesState.Off ∧
        ∀ iov ∈ cb.iovec, iov.iov_len % 8 = 0 ∧
          ∀ t < iov.iov_len, mem (iov.iov_base + t) = 0)) ∧
    (submit_path mem cb = SubmitPath.dispatch OpCode.WriteZeroesUnmap ↔
      (cb.write_zeroes = WriteZeroesState.Unmap ∧ cb.discard = true ∧
        ∀ iov ∈ cb.iovec, iov.iov_len % 8 = 0 ∧
          ∀ t < iov.iov_len, mem (iov.iov_base + t) = 0)) := by
  rw [show (∀ iov ∈ cb.iovec, iov.iov_len % 8 = 0 ∧
      ∀ t < iov.iov_len, mem (iov.iov_base + t) = 0) = (iovec_is_zero mem cb.iovec = true)
    from (propext (iovec_is_zero_iff mem cb.iovec)).symm]
  unfold submit_path promoted_opcode
  rw [if_neg (by simp [hmis])]
  by_cases hz : iovec_is_zero mem cb.iovec <;>
    by_cases hwz : cb.write_zeroes = WriteZeroesState.Off <;>
      by_cases hun : cb.write_zeroes = WriteZeroesState.Unmap <;>
        by_cases hdis : cb.discard = true <;>
          simp_all [hop]

/-- Witness for C2: an aligned all-zero 8-byte write with policy `Unmap`
and discard enabled is promoted to `WriteZeroesUnmap`. -/
theorem pwritev_promotion_iff_witness :
    submit_path (fun _ => 0)
        { direct := false, req_align := 512, buf_align := 512, discard := true,
          write_zeroes := WriteZeroesState.Unmap, file_fd := 3,
          opcode := OpCode.Pwritev, iovec := [Iovec.new 4096 8], offset := 0,
          nbytes := 8, user_data := 0 } = SubmitPath.dispatch OpCode.WriteZeroesUnmap :=
  ((pwritev_promotion_iff (fun _ => 0) _ rfl (by decide)).2).mpr
    ⟨rfl, rfl, by decide⟩

/-! ## Queue, counter and flight-bound lemmas -/

/-- `U64LIMIT` as a numeral, for arithmetic automation. -/
theorem u64limit_eq : U64LIMIT = 18446744073709551616 := by
  norm_num [U64LIMIT]

/-- Incrementing a u64 counter holding `a % 2^64` yields `(a+1) % 2^64`. -/
theorem u64_add_one_mod (a : Nat) :
    u64_add_one (a % U64LIMIT) = (a + 1) % U64LIMIT := by
  simp only [u64_add_one, u64limit_eq]
  omega

/-- Decrementing a u64 counter holding `a % 2^64` with `a ≥ 1` yields
`(a-1) % 2^64`. -/
theorem u64_sub_one_mod (a : Nat) (ha : 1 ≤ a) :
    u64_sub_one (a % U64LIMIT) = (a - 1) % U64LIMIT := by
  simp only [u64_sub_one, u64limit_eq]
  omega

/-- If a state predicate survives one loop iteration under the loop guard,
it survives the whole `process_list` loop. -/
theorem process_list_preserves (P : AioState → Prop)
    (hstep : ∀ reply s, 0 < s.aio_in_queue.length →
        s.aio_in_flight.length < s.max_events → P s → P (process_list_step reply s).st)
    (replies : Nat → SubmitReply) (idx : Nat) (s : AioState) (hp : P s) :
    P (process_list replies idx s).1 := by
  revert hp
  induction idx, s using process_list.induct replies with
  | case1 idx s hg r hl ih =>
    intro hp
    rw [process_list.eq_def, dif_pos hg]
    dsimp only
    rw [dif_pos hl]
    exact ih (hstep _ _ hg.1 hg.2 hp)
  | case2 idx s hg r hl =>
    intro hp
    rw [process_list.eq_def, dif_pos hg]
    dsimp only
    rw [dif_neg hl]
    exact hstep _ _ hg.1 hg.2 hp
  | case3 idx s hg =>
    intro hp
    rw [process_list.eq_def, dif_neg hg]
    exact hp

/-- An empty queue makes `process_list` a no-op. -/
theorem process_list_nil (replies : Nat → SubmitReply) (idx : Nat) (s : AioState)
    (h : s.aio_in_queue = []) : process_list replies idx s = (s, []) := by
  rw [process_list.eq_def, dif_neg]
  rintro ⟨h1, -⟩
  rw [h] at h1
  simp at h1

/-- One loop iteration preserves the counter invariant. -/
theorem process_list_step_cnt (reply : SubmitReply) (s : AioState)
    (hq : 0 < s.aio_in_queue.length) (hf : s.aio_in_flight.length < s.max_events)
    (h : cnt_invariant s) : cnt_invariant (process_list_step reply s).st := by
  have hk : batch_count s ≤ s.aio_in_queue.length := Nat.min_le_right _ _
  cases reply with
  | ok nr =>
    rw [process_list_step_ok]
    unfold cnt_invariant at h ⊢
    simp only [List.length_append, List.length_take, List.length_drop]
    rw [h]
    congr 1
    omega
  | err =>
    have hne : s.aio_in_queue ≠ [] := by
      intro hh
      rw [hh] at hq
      simp at hq
    rw [process_list_step_err s hne]
    unfold cnt_invariant at h ⊢
    simp only [List.length_dropLast]
    rw [h, u64_sub_one_mod _ (by omega)]
    congr 1
    omega

/-- The in-flight bound together with the fixed `max_events`. -/
def flight_bounded (s : AioState) : Prop :=
  s.aio_in_flight.length ≤ s.max_events ∧ s.max_events = 128

/-- One loop iteration preserves the in-flight bound: the batch builder
stops once the flight list holds `max_events` entries, and the push-back
only shrinks it. -/
theorem process_list_step_flight (reply : SubmitReply) (s : AioState)
    (hq : 0 < s.aio_in_queue.length) (hf : s.aio_in_flight.length < s.max_events)
    (h : flight_bounded s) : flight_bounded (process_list_step reply s).st := by
  have hk : batch_count s ≤ s.max_events - s.aio_in_flight.length := Nat.min_le_left _ _
  have hk2 : batch_count s ≤ s.aio_in_queue.length := Nat.min_le_right _ _
  cases reply with
  | ok nr =>
    rw [process_list_step_ok]
    unfold flight_bounded at h ⊢
    simp only [List.length_append, List.length_drop]
    exact ⟨by omega, h.2⟩
  | err =>
    have hne : s.aio_in_queue ≠ [] := by
      intro hh
      rw [hh] at hq
      simp at hq
    rw [process_list_step_err s hne]
    exact h

/-- The reap fold preserves the counter invariant when the events refer to
distinct in-flight nodes. -/
theorem reap_foldl_cnt (events : List AioEventM) :
    ∀ acc : AioState × List (AioCb × Int) × Bool,
      cnt_invariant acc.1 → events_valid events acc.1.aio_in_flight →
      cnt_invariant (events.foldl reap_step acc).1 := by
  induction events with
  | nil =>
    intro acc h _
    simpa using h
  | cons e es ih =>
    intro acc h hv
    rw [List.foldl_cons]
    refine ih (reap_step acc e) ?_ hv.2
    have hmem := hv.1
    have hpos : 0 < acc.1.aio_in_flight.length :=
      List.length_pos.mpr (List.ne_nil_of_mem hmem)
    show u64_sub_one acc.1.incomplete_cnt =
      (acc.1.aio_in_queue.length + (acc.1.aio_in_flight.erase e.cb).length) % U64LIMIT
    rw [List.length_erase_of_mem hmem, h, u64_sub_one_mod _ (by omega)]
    congr 1
    omega

/-- The reap fold preserves the in-flight bound (unlinking only shrinks
the flight list). -/
theorem reap_foldl_flight (events : List AioEventM) :
    ∀ acc : AioState × List (AioCb × Int) × Bool,
      flight_bounded acc.1 → flight_bounded (events.foldl reap_step acc).1 := by
  induction events with
  | nil =>
    intro acc h
    simpa using h
  | cons e es ih =>
    intro acc h
    rw [List.foldl_cons]
    refine ih (reap_step acc e) ?_
    exact ⟨le_trans (List.length_erase_le _ _) h.1, h.2⟩

/-- The reap fold appends, per event in order, the pair of its control
block and the delivered result. -/
theorem reap_foldl_log (events : List AioEventM) :
    ∀ acc : AioState × List (AioCb × Int) × Bool,
      (events.foldl reap_step acc).2.1 =
        acc.2.1 ++ events.map fun e =>
          (e.cb, if e.status = 0 ∧ e.res = i64_of_u64 e.cb.nbytes then e.res
                 else (-1 : Int)) := by
  induction events with
  | nil =>
    intro acc
    simp
  | cons e es ih =>
    intro acc
    have hres : (if (e.status == 0 && e.res == i64_of_u64 e.cb.nbytes) = true
          then e.res else (-1 : Int)) =
        if e.status = 0 ∧ e.res = i64_of_u64 e.cb.nbytes then e.res else (-1 : Int) := by
      by_cases h1 : e.status = 0 <;> by_cases h2 : e.res = i64_of_u64 e.cb.nbytes <;>
        simp [h1, h2]
    rw [List.foldl_cons, ih (reap_step acc e)]
    show acc.2.1 ++ [(e.cb, if (e.status == 0 && e.res == i64_of_u64 e.cb.nbytes) = true
        then e.res else (-1 : Int))] ++ _ = _
    rw [hres]
    simp [List.append_assoc]

/-- The done flag accumulated by the reap fold is the disjunction of the
per-event success tests. -/
theorem reap_foldl_done (events : List AioEventM) :
    ∀ acc : AioState × List (AioCb × Int) × Bool,
      (events.foldl reap_step acc).2.2 =
        (acc.2.2 || events.any fun e =>
          e.status == 0 && e.res == i64_of_u64 e.cb.nbytes) := by
  induction events with
  | nil =>
    intro acc
    simp
  | cons e es ih =>
    intro acc
    rw [List.foldl_cons, ih (reap_step acc e)]
    show ((acc.2.2 || (e.status == 0 && e.res == i64_of_u64 e.cb.nbytes)) ||
        es.any fun x => x.status == 0 && x.res == i64_of_u64 x.cb.nbytes) =
      (acc.2.2 || (e :: es).any fun x => x.status == 0 && x.res == i64_of_u64 x.cb.nbytes)
    simp [Bool.or_assoc]

/-! ## Claim theorems on the queueing engine -/

/-- A concrete control block used by the witnesses. -/
def sample_cb : AioCb :=
  { direct := false, req_align := 512, buf_align := 512, discard := false,
    write_zeroes := WriteZeroesState.Off, file_fd := 3, opcode := OpCode.Pwritev,
    iovec := [Iovec.new 4096 512], offset := 0, nbytes := 512, user_data := 0 }

/-- C3: on a backend error, one `process_list` iteration first returns every
unaccepted control block of the batch (all of them, an error accepts none)
from the flight list to the pending tail — restoring `aio_in_queue`
exactly — then pops exactly one control block from the pending tail, fires
its completion callback with `-1`, decrements the incomplete counter once,
and continues the loop so the rest are retried. -/
theorem submit_error_fails_tail_only (s : AioState) (hq : s.aio_in_queue ≠ [])
    (hf : s.aio_in_flight.length < s.max_events) :
    (process_list_pushback
        ((process_list_fill (s.max_events - s.aio_in_flight.length)
            s.aio_in_queue s.aio_in_flight).2.2.length - 0)
        (process_list_fill (s.max_events - s.aio_in_flight.length)
            s.aio_in_queue s.aio_in_flight).2.1
        (process_list_fill (s.max_events - s.aio_in_flight.length)
            s.aio_in_queue s.aio_in_flight).1 =
      (s.aio_in_flight, s.aio_in_queue)) ∧
    process_list_step SubmitReply.err s =
      { st := { s with
                aio_in_queue := s.aio_in_queue.dropLast
                incomplete_cnt := u64_sub_one s.incomplete_cnt }
        completions := [(s.aio_in_queue.getLast hq, -1)]
        looping := true } := by
  refine ⟨?_, process_list_step_err s hq⟩
  rw [process_list_fill_eq, process_list_pushback_eq]
  dsimp only
  set k := min (s.max_events - s.aio_in_flight.length) s.aio_in_queue.length with hk
  have hk_le : k ≤ s.aio_in_queue.length := by
    rw [hk]; exact Nat.min_le_right _ _
  set d := s.aio_in_queue.length - k with hd
  have hlen : (s.aio_in_queue.drop d).length = k := by
    simp [hd, Nat.sub_sub_self hk_le]
  rw [Nat.sub_zero, List.length_reverse, hlen]
  rw [List.take_append_of_le_length (le_of_eq hlen.symm),
    List.drop_append_of_le_length (le_of_eq hlen.symm)]
  rw [show (s.aio_in_queue.drop d).take k = s.aio_in_queue.drop d by
    rw [← hlen]; exact List.take_length _]
  rw [show (s.aio_in_queue.drop d).drop k = [] by
    rw [← hlen]; exact List.drop_length _]
  rw [List.take_append_drop]
  simp

/-- Witness for C3: a one-element queue, a failing backend. -/
theorem submit_error_fails_tail_only_witness :
    process_list_step SubmitReply.err
        { aio_in_queue := [sample_cb], aio_in_flight := [],
          incomplete_cnt := 1, max_events := 128 } =
      { st := { aio_in_queue := [], aio_in_flight := [],
                incomplete_cnt := 0, max_events := 128 }
        completions := [(sample_cb, -1)]
        looping := true } := by
  have h := (submit_error_fails_tail_only
      { aio_in_queue := [sample_cb], aio_in_flight := [],
        incomplete_cnt := 1, max_events := 128 }
      (by simp) (by norm_num)).2
  rw [h]
  rfl

/-- C4: the incomplete counter always publishes (modulo u64 wrap-around,
which is unreachable for physical queue sizes) the number of queued plus
in-flight control blocks: true after `Aio::new`, preserved by `rw_async`,
by `process_list` under any backend replies (each error-failed block leaves
with one decrement), and by `handle_complete` for events that reap distinct
in-flight nodes; below 2^64 the invariant is the plain equality. -/
theorem incomplete_counts_queued_plus_inflight :
    cnt_invariant Aio.new ∧
    (∀ (replies : Nat → SubmitReply) (s : AioState) (cb : AioCb),
        cnt_invariant s → cnt_invariant (rw_async replies s cb).1) ∧
    (∀ (replies : Nat → SubmitReply) (idx : Nat) (s : AioState),
        cnt_invariant s → cnt_invariant (process_list replies idx s).1) ∧
    (∀ (has_ctx : Bool) (events : List AioEventM) (replies : Nat → SubmitReply)
        (s : AioState), cnt_invariant s → events_valid events s.aio_in_flight →
        cnt_invariant (handle_complete has_ctx events replies s).1) ∧
    (∀ s : AioState, cnt_invariant s →
        s.aio_in_queue.length + s.aio_in_flight.length < U64LIMIT →
        s.incomplete_cnt = s.aio_in_queue.length + s.aio_in_flight.length) := by
  have hpl : ∀ (replies : Nat → SubmitReply) (idx : Nat) (s : AioState),
      cnt_invariant s → cnt_invariant (process_list replies idx s).1 :=
    fun replies idx s h =>
      process_list_preserves cnt_invariant process_list_step_cnt replies idx s h
  refine ⟨?_, ?_, hpl, ?_, ?_⟩
  · show (0 : Nat) = (0 + 0) % U64LIMIT
    simp
  · intro replies s cb h
    have hs1 : cnt_invariant ({ s with
        aio_in_queue := cb :: s.aio_in_queue
        incomplete_cnt := u64_add_one s.incomplete_cnt } : AioState) := by
      show u64_add_one s.incomplete_cnt =
        ((cb :: s.aio_in_queue).length + s.aio_in_flight.length) % U64LIMIT
      rw [h, u64_add_one_mod]
      congr 1
      simp only [List.length_cons]
      omega
    unfold rw_async
    dsimp only
    split
    · exact hpl _ _ _ hs1
    · exact hs1
  · intro has_ctx events replies s h hv
    cases has_ctx with
    | false => simpa [handle_complete] using h
    | true =>
      unfold handle_complete reap_events
      dsimp only
      rw [if_pos rfl]
      dsimp only
      exact hpl _ _ _ (reap_foldl_cnt events (s, [], false) h hv)
  · intro s h hlt
    rw [h, Nat.mod_eq_of_lt hlt]

/-- Witness for C4: an `rw_async` on the fresh engine keeps the invariant. -/
theorem incomplete_counts_witness :
    cnt_invariant (rw_async (fun _ => SubmitReply.ok 0) Aio.new sample_cb).1 :=
  incomplete_counts_queued_plus_inflight.2.1 (fun _ => SubmitReply.ok 0) Aio.new
    sample_cb incomplete_counts_queued_plus_inflight.1

/-- C5: the engine is built with `max_events = 128`, and the in-flight
queue never grows past `max_events`: the batch builder of `process_list`
only tops the flight list up to `max_events` (third conjunct), and every
engine operation preserves the bound together with the fixed
`max_events = 128`. -/
theorem inflight_bounded_by_max_events :
    Aio.new.max_events = 128 ∧
    flight_bounded Aio.new ∧
    (∀ s : AioState, s.aio_in_flight.length < s.max_events →
        (process_list_fill (s.max_events - s.aio_in_flight.length)
            s.aio_in_queue s.aio_in_flight).2.1.length ≤ s.max_events) ∧
    (∀ (replies : Nat → SubmitReply) (s : AioState) (cb : AioCb),
        flight_bounded s → flight_bounded (rw_async replies s cb).1) ∧
    (∀ (replies : Nat → SubmitReply) (idx : Nat) (s : AioState),
        flight_bounded s → flight_bounded (process_list replies idx s).1) ∧
    (∀ (has_ctx : Bool) (events : List AioEventM) (replies : Nat → SubmitReply)
        (s : AioState), flight_bounded s →
        flight_bounded (handle_complete has_ctx events replies s).1) := by
  have hpl : ∀ (replies : Nat → SubmitReply) (idx : Nat) (s : AioState),
      flight_bounded s → flight_bounded (process_list replies idx s).1 :=
    fun replies idx s h =>
      process_list_preserves flight_bounded process_list_step_flight replies idx s h
  refine ⟨rfl, ⟨by simp [Aio.new], rfl⟩, ?_, ?_, hpl, ?_⟩
  · intro s hf
    rw [process_list_fill_eq]
    dsimp only
    simp only [List.length_append, List.length_drop]
    have : min (s.max_events - s.aio_in_flight.length) s.aio_in_queue.length ≤
        s.max_events - s.aio_in_flight.length := Nat.min_le_left _ _
    omega
  · intro replies s cb h
    have hs1 : flight_bounded ({ s with
        aio_in_queue := cb :: s.aio_in_queue
        incomplete_cnt := u64_add_one s.incomplete_cnt } : AioState) := h
    unfold rw_async
    dsimp only
    split
    · exact hpl _ _ _ hs1
    · exact hs1
  · intro has_ctx events replies s h
    cases has_ctx with
    | false => simpa [handle_complete] using h
    | true =>
      unfold handle_complete reap_events
      dsimp only
      rw [if_pos rfl]
      dsimp only
      exact hpl _ _ _ (reap_foldl_flight events (s, [], false) h)

/-- Witness for C5: the bound holds after an `rw_async` on the fresh
engine. -/
theorem inflight_bounded_witness :
    flight_bounded (rw_async (fun _ => SubmitReply.ok 0) Aio.new sample_cb).1 :=
  inflight_bounded_by_max_events.2.2.2.1 (fun _ => SubmitReply.ok 0) Aio.new
    sample_cb inflight_bounded_by_max_events.2.1

/-- C6: for every reaped completion event, the result delivered to that
control block's callback is `evt.res` when `evt.status == 0` and `evt.res`
equals the block's `nbytes` (as i64), and `-1` in every other case; the
first `events.length` entries of the `handle_complete` completion log are
exactly these deliveries, in event order. -/
theorem reaped_event_result (events : List AioEventM) (replies : Nat → SubmitReply)
    (s : AioState) :
    (handle_complete true events replies s).2.1.take events.length =
      events.map fun e =>
        (e.cb, if e.status = 0 ∧ e.res = i64_of_u64 e.cb.nbytes then e.res
               else (-1 : Int)) := by
  unfold handle_complete reap_events
  dsimp only
  rw [if_pos rfl]
  dsimp only
  rw [reap_foldl_log events (s, [], false), List.nil_append]
  exact List.take_left' (List.length_map _ _)

/-- Counterexample to C7 as stated: one event is reaped, but because it is
a failure (`status = 1`), `handle_complete` still reports `false`. -/
theorem handle_complete_done_counterexample :
    ([({ cb := sample_cb, status := 1, res := 0 } : AioEventM)] ≠
        ([] : List AioEventM)) ∧
    (handle_complete true [{ cb := sample_cb, status := 1, res := 0 }]
        (fun _ => SubmitReply.ok 0) Aio.new).2.2 = false := by
  refine ⟨by simp, ?_⟩
  unfold handle_complete reap_events
  dsimp only
  rw [if_pos rfl]
  dsimp only
  rw [reap_foldl_done [{ cb := sample_cb, status := 1, res := 0 }]
    (Aio.new, [], false)]
  simp [sample_cb]

/-- C7 (amended): `handle_complete` returns `true` iff at least one reaped
event was a success (`status == 0` and `res` equal to the block's
`nbytes`); reaped failure events do not set the flag, and without a backend
context the report is `false`. -/
theorem handle_complete_done_iff_success :
    (∀ (events : List AioEventM) (replies : Nat → SubmitReply) (s : AioState),
        (handle_complete true events replies s).2.2 =
          events.any fun e => e.status == 0 && e.res == i64_of_u64 e.cb.nbytes) ∧
    (∀ (events : List AioEventM) (replies : Nat → SubmitReply) (s : AioState),
        (handle_complete false events replies s).2.2 = false) := by
  constructor
  · intro events replies s
    unfold handle_complete reap_events
    dsimp only
    rw [if_pos rfl]
    dsimp only
    rw [reap_foldl_done events (s, [], false)]
    simp
  · intro events replies s
    rfl

/-! ## Claim theorems on the synchronous paths -/

/-- Whether a trace action is the completion callback. -/
def is_callback_event : MisEvent → Bool
  | MisEvent.callback _ => true
  | _ => false

/-- A concrete misaligned direct read used by the witnesses. -/
def sample_misaligned_cb : AioCb :=
  { direct := true, req_align := 512, buf_align := 512, discard := false,
    write_zeroes := WriteZeroesState.Off, file_fd := 3, opcode := OpCode.Preadv,
    iovec := [Iovec.new 4096 512], offset := 50, nbytes := 512, user_data := 0 }

/-- C8: on the misaligned direct-I/O path the completion callback fires
exactly once — with `0` when the bounce I/O succeeded and `-1` on any
failure, including a failed bounce-buffer allocation — and when a buffer
was allocated it is freed before the callback result is returned (the
trace ends with the callback, after the free). -/
theorem misaligned_path_completes_once (cb : AioCb) (alloc_ok rw_ok : Bool)
    (i : Nat) (hmis : request_misaligned cb = true) (hi : cb.req_align = 2 ^ i) :
    ∃ tr, submit_request_misaligned cb alloc_ok rw_ok = some tr ∧
      (tr.filter is_callback_event).length = 1 ∧
      tr.getLast? = some (MisEvent.callback (if alloc_ok && rw_ok then 0 else -1)) ∧
      (alloc_ok = true →
        tr = [MisEvent.alloc, MisEvent.free,
          MisEvent.callback (if rw_ok then 0 else -1)]) := by
  have halign : cb.req_align ≠ 0 := by
    rw [hi]
    positivity
  unfold submit_request_misaligned round_down
  rw [if_neg halign]
  dsimp only
  cases alloc_ok with
  | true =>
    cases rw_ok <;>
      exact ⟨_, rfl, by simp [is_callback_event], by simp, by simp⟩
  | false =>
    exact ⟨_, rfl, by simp [is_callback_event], by simp, by intro h; simp at h⟩

/-- Witness for C8: the misaligned sample block with successful allocation
and bounce I/O. -/
theorem misaligned_path_completes_once_witness :
    ∃ tr, submit_request_misaligned sample_misaligned_cb true true = some tr ∧
      (tr.filter is_callback_event).length = 1 ∧
      tr.getLast? = some (MisEvent.callback (if true && true then 0 else -1)) ∧
      (true = true → tr = [MisEvent.alloc, MisEvent.free,
        MisEvent.callback (if true then 0 else -1)]) :=
  misaligned_path_completes_once sample_misaligned_cb true true 9 (by decide)
    (by norm_num [sample_misaligned_cb])

/-- C10: for a `WriteZeroesUnmap` control block, `write_zeroes_sync` tries
`raw_discard` first; the callback receives `0` with no write-zeroes call
exactly when the discard returned `0`, and otherwise `raw_write_zeroes`
runs and its return value is delivered to the callback — a failed discard
falls back to zeroing instead of failing the block. -/
theorem write_zeroes_unmap_falls_back (cb : AioCb) (discard_res wz_res : Int)
    (h : cb.opcode = OpCode.WriteZeroesUnmap) :
    (discard_res = 0 →
      write_zeroes_sync cb discard_res wz_res =
        [WzEvent.discard_call 0, WzEvent.callback 0]) ∧
    (discard_res ≠ 0 →
      write_zeroes_sync cb discard_res wz_res =
        [WzEvent.discard_call discard_res, WzEvent.write_zeroes_call wz_res,
          WzEvent.callback wz_res]) ∧
    ((WzEvent.callback 0 ∈ write_zeroes_sync cb discard_res wz_res ∧
        ∀ r, WzEvent.write_zeroes_call r ∉ write_zeroes_sync cb discard_res wz_res) ↔
      discard_res = 0) := by
  unfold write_zeroes_sync
  rw [h]
  by_cases hdr : discard_res = 0 <;> simp [hdr]

/-- Witness for C10: a failing discard (`5`) falls back to write-zeroes
with result `-3`. -/
theorem write_zeroes_unmap_falls_back_witness :
    ((5 : Int) = 0 →
      write_zeroes_sync { sample_cb with opcode := OpCode.WriteZeroesUnmap } 5 (-3) =
        [WzEvent.discard_call 0, WzEvent.callback 0]) ∧
    ((5 : Int) ≠ 0 →
      write_zeroes_sync { sample_cb with opcode := OpCode.WriteZeroesUnmap } 5 (-3) =
        [WzEvent.discard_call 5, WzEvent.write_zeroes_call (-3),
          WzEvent.callback (-3)]) ∧
    ((WzEvent.callback 0 ∈
          write_zeroes_sync { sample_cb with opcode := OpCode.WriteZeroesUnmap } 5 (-3) ∧
        ∀ r, WzEvent.write_zeroes_call r ∉
          write_zeroes_sync { sample_cb with opcode := OpCode.WriteZeroesUnmap } 5 (-3)) ↔
      (5 : Int) = 0) :=
  write_zeroes_unmap_falls_back { sample_cb with opcode := OpCode.WriteZeroesUnmap }
    5 (-3) rfl
